import Mathlib

/-!
Verification development for scripts/download-sample-pdfs.py.

The script is a single sequential batch job: it loads a CSV table, computes
per-journal download statistics, selects a set of journals, iterates the rows
in file order attempting PDF downloads, and persists a status column after
every state-changing attempt.  The definitions below are a shallow embedding
of that script: pure Python functions become Lean functions, the download
loop becomes a fold over the row list threading an explicit state record, and
the network is abstracted as an oracle giving the outcome of each attempt.
-/

namespace Sampler

/-! ## Configuration constants (lines 24-26 of the script) -/

def PDFS_PER_JOURNAL : Nat := 2
def NUM_JOURNALS : Nat := 5
def TOTAL_PDFS : Nat := PDFS_PER_JOURNAL * NUM_JOURNALS

/-! ## Identifier-to-filename encoding (encode_doi_for_filename, lines 98-127)

`encode_doi_for_filename` strips a DOI resolver URL scheme, replaces slashes
with a double underscore, and calls `urllib.parse.quote(doi, safe='_-.')`.
`quote` percent-encodes, over the UTF-8 bytes of the string, every character
outside its safe set; its always-safe set is the ASCII alphanumerics together
with the four characters underscore, period, hyphen and tilde, and the `safe`
parameter adds (redundantly, except that it documents intent) underscore,
hyphen and period. -/

/-- Does `cs` start with the character list `p`?  (Python `str.startswith`.) -/
def startsWithChars : List Char → List Char → Bool
  | [], _ => true
  | _ :: _, [] => false
  | p :: ps, c :: cs => p == c && startsWithChars ps cs

/-- Strip the resolver scheme, exactly as lines 113-116 of the script:
an exact, case-sensitive match of the literal scheme text only. -/
def stripResolver (cs : List Char) : List Char :=
  if startsWithChars ("https://doi.org/".data) cs then cs.drop 16
  else if startsWithChars ("http://doi.org/".data) cs then cs.drop 15
  else cs

/-- Replace every forward slash by two underscores
(Python `doi.replace('/', '__')`, line 119). -/
def replaceSlash : List Char → List Char
  | [] => []
  | c :: cs => if c == '/' then '_' :: '_' :: replaceSlash cs else c :: replaceSlash cs

/-- Uppercase hexadecimal digit for `n < 16`. -/
def hexDigitUpper (n : Nat) : Char :=
  if n < 10 then Char.ofNat (48 + n) else Char.ofNat (55 + n)

/-- Percent-encoding of a single byte, `%XX` with uppercase hex. -/
def percentByte (b : Nat) : List Char :=
  ['%', hexDigitUpper (b / 16), hexDigitUpper (b % 16)]

/-- UTF-8 bytes of a unicode scalar value (Python `str.encode('utf-8')`,
which is what `urllib.parse.quote` applies before percent-encoding). -/
def utf8Bytes (c : Char) : List Nat :=
  let n := c.toNat
  if n < 128 then [n]
  else if n < 2048 then
    [192 + n / 64, 128 + n % 64]
  else if n < 65536 then
    [224 + n / 4096, 128 + (n / 64) % 64, 128 + n % 64]
  else
    [240 + n / 262144, 128 + (n / 4096) % 64, 128 + (n / 64) % 64, 128 + n % 64]

/-- `urllib.parse.quote` restricted to what the script uses: keep a character
verbatim when `safe` holds, otherwise percent-encode each of its UTF-8 bytes. -/
def pyQuote (safe : Char → Bool) (cs : List Char) : List Char :=
  (cs.map (fun c => if safe c then [c] else ((utf8Bytes c).map percentByte).flatten)).flatten

/-- The characters `urllib.parse.quote` never encodes: ASCII alphanumerics
and underscore, period, hyphen, tilde. -/
def pythonAlwaysSafe (c : Char) : Bool :=
  c.isAlphanum || c == '_' || c == '.' || c == '-' || c == '~'

/-- The full safe set of `quote(doi, safe='_-.')` (line 125): the always-safe
characters plus the explicit `safe` parameter characters. -/
def quoteSafeChars (c : Char) : Bool :=
  pythonAlwaysSafe c || c == '_' || c == '-' || c == '.'

/-- `encode_doi_for_filename` (lines 98-127): strip the resolver scheme,
replace slashes by double underscore, percent-encode via
`quote(doi, safe='_-.')`. -/
def encode_doi_for_filename (doi : String) : String :=
  (pyQuote quoteSafeChars (replaceSlash (stripResolver doi.data))).asString

/-- The safe set as the specification states it: alphanumeric, underscore,
hyphen, or period (tilde NOT safe).  Second definition for refinement
comparison, following the spec text of §4.3. -/
def specSafeChars (c : Char) : Bool :=
  c.isAlphanum || c == '_' || c == '-' || c == '.'

/-- The encoding pipeline exactly as the specification words it (§4.3):
strip the resolver scheme, replace slashes by `__`, percent-encode every
character that is not alphanumeric, underscore, hyphen, or period. -/
def specEncode (doi : String) : String :=
  (pyQuote specSafeChars (replaceSlash (stripResolver doi.data))).asString

/-- The amended safe set: the spec's safe characters plus tilde, which
`urllib.parse.quote` never encodes. -/
def specSafeAmendedChars (c : Char) : Bool :=
  c.isAlphanum || c == '_' || c == '-' || c == '.' || c == '~'

/-- The amended spec pipeline: like `specEncode` but with tilde also safe. -/
def specEncodeAmended (doi : String) : String :=
  (pyQuote specSafeAmendedChars (replaceSlash (stripResolver doi.data))).asString

/-! ## Fetch (download_pdf, lines 130-163)

The network is abstracted as the outcome of the single `urlopen` call: either
an exception (`HTTPError` for a non-2xx status, `URLError` for an unreachable
host or timeout, or any other exception) or a successful response body.
`download_pdf` returns a success flag and, when it writes the destination
file, the bytes written (`none` = no file written). -/

inductive FetchOutcome where
  | httpError (code : Nat)
  | urlError
  | otherError
  | success (content : List Nat)
deriving DecidableEq

/-- The canonical PDF signature bytes, `b'%PDF'` (line 145). -/
def pdfSignature : List Nat := [37, 80, 68, 70]

/-- `download_pdf` (lines 130-163): on a successful response whose body
begins with the PDF signature, write the body to the destination and return
`True`; in every other case return `False` without writing. -/
def download_pdf (outcome : FetchOutcome) : Bool × Option (List Nat) :=
  match outcome with
  | .success content =>
      if content.take 4 = pdfSignature then (true, some content) else (false, none)
  | .httpError _ => (false, none)
  | .urlError => (false, none)
  | .otherError => (false, none)

/-! ## Storage adapter (read_csv_with_downloaded_column / write_csv)

The `csv` module's `DictReader` turns each data line into a dict mapping the
header fields, in header order, to the line's fields; `DictWriter` writes the
header line and then, for each dict, the values of the header fields in
header order.  Dicts are modelled as association lists in insertion order.
The byte-level behaviour of the `excel` dialect (comma delimiter, `"`
quoting with doubled quotes, minimal quoting on write) is modelled below on
lines represented as `List Char` without their line terminators. -/

abbrev Row := List (String × String)

/-- `DictReader` row construction: zip the header with a line's fields.
(Rows are assumed to be header-width, the well-formed case of §6.) -/
def dictRows (fieldnames : List String) (raws : List (List String)) : List Row :=
  raws.map (fun vals => fieldnames.zip vals)

/-- `read_csv_with_downloaded_column` (lines 34-55), from the parsed table:
if the header lacks `downloaded`, append it to the schema and set it to the
empty string on every row (Python appends the key to each row dict in the
reading loop); otherwise return rows and header unchanged. -/
def read_csv_with_downloaded_column (fieldnames : List String)
    (raws : List (List String)) : List Row × List String :=
  if "downloaded" ∈ fieldnames then
    (dictRows fieldnames raws, fieldnames)
  else
    ((dictRows fieldnames raws).map (fun r => r ++ [("downloaded", "")]),
     fieldnames ++ ["downloaded"])

/-- The spec's error taxonomy (§7): storage with no header is unreadable.
(In the script the failure is the uncaught `TypeError` raised at line 45 when
`DictReader.fieldnames` is `None`; the spec names this class FormatError.) -/
inductive FormatError where
  | noHeader
deriving DecidableEq

/-! ### Byte-level CSV lines (the `excel` dialect of the `csv` module) -/

def dquote : Char := Char.ofNat 34
def crChar : Char := Char.ofNat 13
def lfChar : Char := Char.ofNat 10

/-- Parser mode of the `csv` reader's field automaton. -/
inductive CsvMode where
  | fieldStart
  | unquoted
  | quoted
  | quoteInQuoted
deriving DecidableEq

structure CsvSt where
  done : List (List Char)
  cur : List Char
  mode : CsvMode
deriving DecidableEq

/-- One step of the `csv` reader automaton: a quote is special only at field
start (entering quoted mode) and inside quoted mode (where a doubled quote is
a literal quote and a single closing quote returns to unquoted reading, the
module's non-strict behaviour); a comma outside quoted mode ends the field. -/
def csvStep (st : CsvSt) (c : Char) : CsvSt :=
  match st.mode with
  | .fieldStart =>
      if c = dquote then { st with mode := .quoted }
      else if c = ',' then { st with done := st.done ++ [st.cur], cur := [] }
      else { st with cur := st.cur ++ [c], mode := .unquoted }
  | .unquoted =>
      if c = ',' then { st with done := st.done ++ [st.cur], cur := [], mode := .fieldStart }
      else { st with cur := st.cur ++ [c] }
  | .quoted =>
      if c = dquote then { st with mode := .quoteInQuoted }
      else { st with cur := st.cur ++ [c] }
  | .quoteInQuoted =>
      if c = dquote then { st with cur := st.cur ++ [dquote], mode := .quoted }
      else if c = ',' then { st with done := st.done ++ [st.cur], cur := [], mode := .fieldStart }
      else { st with cur := st.cur ++ [c], mode := .unquoted }

/-- Parse one CSV record line (terminator excluded) into its fields. -/
def parseLine (cs : List Char) : List (List Char) :=
  let st := cs.foldl csvStep ⟨[], [], .fieldStart⟩
  st.done ++ [st.cur]

/-- Does the `csv` writer need to quote this field?  (`QUOTE_MINIMAL`: only
when it contains the delimiter, the quote character, or a terminator char.) -/
def needsQuoting (f : List Char) : Bool :=
  f.any (fun c => c = ',' || c = dquote || c = crChar || c = lfChar)

/-- Double every quote character (the writer's `doublequote=True`). -/
def escapeQuotes : List Char → List Char
  | [] => []
  | c :: cs => if c = dquote then dquote :: dquote :: escapeQuotes cs else c :: escapeQuotes cs

/-- Serialize one field with minimal quoting. -/
def serializeField (f : List Char) : List Char :=
  if needsQuoting f then dquote :: (escapeQuotes f ++ [dquote]) else f

/-- Join serialized fields with the comma delimiter. -/
def joinComma : List (List Char) → List Char
  | [] => []
  | [f] => f
  | f :: fs => f ++ ',' :: joinComma fs

/-- Serialize one CSV record line (terminator excluded). -/
def serializeLine (fs : List (List Char)) : List Char :=
  joinComma (fs.map serializeField)

/-- Reading the storage file, lines 40-55 composed with the `csv` reader:
an empty file has no header (`DictReader.fieldnames` is `None`) and aborts
with the FormatError of §7; otherwise the first line is the header and the
rest are the records, fed to `read_csv_with_downloaded_column`. -/
def readCsvChecked (lines : List (List Char)) :
    Except FormatError (List Row × List String) :=
  match lines with
  | [] => .error .noHeader
  | header :: rest =>
      .ok (read_csv_with_downloaded_column
            ((parseLine header).map List.asString)
            (rest.map (fun l => (parseLine l).map List.asString)))

/-- `write_csv` (lines 58-63) composed with the `csv` writer: the header
line, then each row's values in header order (`DictWriter` fills a missing
key with the empty rest-value). -/
def write_csv (fieldnames : List String) (rows : List Row) : List (List Char) :=
  serializeLine (fieldnames.map (fun fn => fn.data)) ::
    rows.map (fun r =>
      serializeLine (fieldnames.map (fun fn => ((r.lookup fn).getD "").data)))

/-- Load the table, change nothing, save it: the §8 round-trip experiment. -/
def csvRoundTrip (lines : List (List Char)) : List (List Char) :=
  match readCsvChecked lines with
  | .error _ => []
  | .ok (rows, fns) => write_csv fns rows

/-! ## Selection and download loop (main, lines 166-268)

A record carries the four columns the loop reads (`row['journal']`,
`row['doi']`, `row['oa_url']`, `row.get('downloaded', '')`).  The loop state
mirrors the local variables of `main`: `downloads_successful`,
`downloads_per_journal` and `attempted_per_journal` (dicts with default 0,
modelled as association lists in insertion order, whose absent keys count 0),
and `active_journals` (a set, modelled as a duplicate-free list).  The
outcome of each `download_pdf` call is abstracted as an oracle indexed by the
row number, exactly the `row_index` the script passes. -/

/-- Python `str.lower()`, restricted to its ASCII action (the status values
the script compares are ASCII). -/
def pyLower (s : String) : String :=
  (s.data.map Char.toLower).asString

structure Record where
  journal : String
  doi : String
  oa_url : String
  downloaded : String
deriving DecidableEq

structure DlState where
  successes : Nat
  perJournal : List (String × Nat)
  attempted : List (String × Nat)
  active : List String
  overflowAdds : Nat
deriving DecidableEq

/-- Increment a counter dict at a key (`d[k] += 1` on a `defaultdict(int)`). -/
def incr (m : List (String × Nat)) (j : String) : List (String × Nat) :=
  match m with
  | [] => [(j, 1)]
  | (k, v) :: rest => if k = j then (k, v + 1) :: rest else (k, v) :: incr rest j

/-- Counter lookup with the `defaultdict` default 0. -/
def getCount (m : List (String × Nat)) (j : String) : Nat :=
  ((m.lookup j).getD 0)

/-- `sum(d.values())` of a counter dict. -/
def sumValues (m : List (String × Nat)) : Nat :=
  (m.map Prod.snd).sum

/-- The overflow-rescue test of line 213, in Python's exact (unbounded,
possibly negative) integer arithmetic:
`downloads_successful + (len(active_journals) * PDFS_PER_JOURNAL -
sum(downloads_per_journal.values())) < TOTAL_PDFS`. -/
def overflowCond (st : DlState) : Bool :=
  (st.successes : Int) +
      ((st.active.length : Int) * (PDFS_PER_JOURNAL : Int)
        - (sumValues st.perJournal : Int))
    < (TOTAL_PDFS : Int)

/-- The journal-activation step, lines 205-217: a journal not yet active is
activated when fewer than `NUM_JOURNALS` journals are active and it appears
in the priority list; otherwise only when the overflow-rescue test fires.
`overflowAdds` counts activations through the rescue branch (the script
prints "Adding journal to active set" there, line 217). -/
def activate (pri : List String) (st : DlState) (j : String) : DlState :=
  if j ∉ st.active then
    if st.active.length < NUM_JOURNALS then
      if j ∈ pri then { st with active := st.active ++ [j] } else st
    else if overflowCond st then
      if j ∈ pri ∧ j ∉ st.active then
        { st with active := st.active ++ [j], overflowAdds := st.overflowAdds + 1 }
      else st
    else st
  else st

/-- The body of the `for` loop for one row (lines 196-253), given the oracle
outcome `ok` of the fetch for this row: skip rows already terminal (line
199-201), run the activation step, skip rows of inactive journals (line
220-221) and of journals that reached the per-journal target (line 223-224),
otherwise count the attempt and record the outcome (lines 227-253).
Returns the (possibly updated) row and the new state. -/
def processRow (pri : List String) (ok : Bool) (st : DlState) (row : Record) :
    Record × DlState :=
  if pyLower row.downloaded = "yes" ∨ pyLower row.downloaded = "unavailable" then
    (row, st)
  else
    let st1 := activate pri st row.journal
    if row.journal ∉ st1.active then (row, st1)
    else if PDFS_PER_JOURNAL ≤ getCount st1.perJournal row.journal then (row, st1)
    else
      let st2 := { st1 with attempted := incr st1.attempted row.journal }
      if ok then
        ({ row with downloaded := "yes" },
         { st2 with successes := st2.successes + 1,
                    perJournal := incr st2.perJournal row.journal })
      else
        ({ row with downloaded := "unavailable" }, st2)

/-- The `for i, row in enumerate(rows)` loop (lines 192-253): stop once
`downloads_successful` reaches `TOTAL_PDFS` (lines 193-194, leaving the
remaining rows untouched), else process the row and continue.  Returns the
final row list and state. -/
def runLoop (pri : List String) (oracle : Nat → Bool) :
    Nat → DlState → List Record → List Record × DlState
  | _, st, [] => ([], st)
  | i, st, row :: rest =>
      if TOTAL_PDFS ≤ st.successes then (row :: rest, st)
      else
        let p := processRow pri (oracle i) st row
        let q := runLoop pri oracle (i + 1) p.2 rest
        (p.1 :: q.1, q.2)

/-- The loop's initial state (lines 184-187): all counters zero, no active
journals. -/
def initState : DlState := ⟨0, [], [], [], 0⟩

/-- Journals in first-occurrence order (the iteration order of the
`defaultdict` built by `get_journal_download_stats`, lines 66-76). -/
def journalsFirstOccur (rows : List Record) : List String :=
  rows.foldl (fun acc r => if r.journal ∈ acc then acc else acc ++ [r.journal]) []

/-- Number of rows of journal `j` whose status reads as a success
(the `downloaded` tally of `get_journal_download_stats`, line 73-74). -/
def downloadedCount (rows : List Record) (j : String) : Nat :=
  (rows.filter (fun r => r.journal = j && pyLower r.downloaded = "yes")).length

/-- Code-point lexicographic comparison of character lists
(Python string `<`). -/
def charListLt : List Char → List Char → Bool
  | [], [] => false
  | [], _ :: _ => true
  | _ :: _, [] => false
  | a :: as, b :: bs => if a < b then true else if b < a then false else charListLt as bs

/-- The sort key order of line 92: ascending downloaded count, ties broken
by ascending journal name. -/
def priorityLE (rows : List Record) (a b : String) : Bool :=
  if downloadedCount rows a = downloadedCount rows b then
    charListLt a.data b.data || a = b
  else
    decide (downloadedCount rows a < downloadedCount rows b)

def insertLE (le : String → String → Bool) (a : String) : List String → List String
  | [] => [a]
  | b :: bs => if le a b then a :: b :: bs else b :: insertLE le a bs

def sortLE (le : String → String → Bool) : List String → List String
  | [] => []
  | a :: as => insertLE le a (sortLE le as)

/-- `get_sorted_journals_by_priority` (lines 79-95): all journals sorted by
ascending downloaded count, then name. -/
def get_sorted_journals_by_priority (rows : List Record) : List String :=
  sortLE (priorityLE rows) (journalsFirstOccur rows)

/-- `main` from the point where rows are in memory (lines 180-268): build
the priority list, run the loop from the zero state, and return the final
rows, the final state, and the process exit code (`1` when the target was
missed, lines 263-266, else `0`, line 268). -/
def mainRun (oracle : Nat → Bool) (rows : List Record) :
    List Record × DlState × Nat :=
  let pri := get_sorted_journals_by_priority rows
  let p := runLoop pri oracle 0 initState rows
  (p.1, p.2, if p.2.successes < TOTAL_PDFS then 1 else 0)

/-- Project a CSV row dict onto the columns the loop reads. -/
def rowToRecord (r : Row) : Record :=
  { journal := ((r.lookup "journal").getD ""),
    doi := ((r.lookup "doi").getD ""),
    oa_url := ((r.lookup "oa_url").getD ""),
    downloaded := ((r.lookup "downloaded").getD "") }

/-- `main` from the raw storage lines: load (which aborts with the
FormatError when the file has no header, before any download attempt),
then run the loop. -/
def mainChecked (oracle : Nat → Bool) (lines : List (List Char)) :
    Except FormatError (List Record × DlState × Nat) :=
  (readCsvChecked lines).map (fun p => mainRun oracle (p.1.map rowToRecord))

/-- Plain comma split, the reader's behaviour on quote-free lines. -/
def splitOnComma : List Char → List (List Char)
  | [] => [[]]
  | c :: cs =>
      if c = ',' then [] :: splitOnComma cs
      else
        match splitOnComma cs with
        | [] => [[c]]
        | f :: fs => (c :: f) :: fs

/-- Prepend pending field characters to the first field of a field list
(bookkeeping device for reasoning about the reader automaton). -/
def prependFirst (cur : List Char) : List (List Char) → List (List Char)
  | [] => [cur]
  | f :: fs => (cur ++ f) :: fs

/-! ## Lemmas about the counter dicts -/

theorem sumValues_incr (m : List (String × Nat)) (j : String) :
    sumValues (incr m j) = sumValues m + 1 := by
  induction m with
  | nil => simp [incr, sumValues]
  | cons kv rest ih =>
      obtain ⟨k, v⟩ := kv
      by_cases h : k = j
      · simp [incr, h, sumValues]
        omega
      · simp only [incr, if_neg h]
        simp [sumValues] at ih ⊢
        omega

theorem getCount_incr_self (m : List (String × Nat)) (j : String) :
    getCount (incr m j) j = getCount m j + 1 := by
  induction m with
  | nil => simp [incr, getCount, List.lookup]
  | cons kv rest ih =>
      obtain ⟨k, v⟩ := kv
      by_cases h : k = j
      · subst h
        simp [incr, getCount, List.lookup]
      · have hne : (j == k) = false := by
          simp [beq_iff_eq]
          exact fun hh => h hh.symm
        simp [incr, if_neg h, getCount, List.lookup, hne] at ih ⊢
        exact ih

theorem getCount_incr_ne (m : List (String × Nat)) (j k : String) (hne : k ≠ j) :
    getCount (incr m j) k = getCount m k := by
  induction m with
  | nil =>
      have : (k == j) = false := by simp [beq_iff_eq]; exact hne
      simp [incr, getCount, List.lookup, this]
  | cons kv rest ih =>
      obtain ⟨a, v⟩ := kv
      by_cases h : a = j
      · subst h
        have : (k == a) = false := by simp [beq_iff_eq]; exact hne
        simp [incr, getCount, List.lookup, this]
      · by_cases hk : k = a
        · subst hk
          simp [incr, if_neg h, getCount, List.lookup]
        · have : (k == a) = false := by simp [beq_iff_eq]; exact hk
          simp [incr, if_neg h, getCount, List.lookup, this] at ih ⊢
          exact ih

/-! ## Lemmas about the activation step and the loop invariants -/

theorem activate_fields (pri : List String) (st : DlState) (j : String) :
    (activate pri st j).perJournal = st.perJournal ∧
    (activate pri st j).attempted = st.attempted ∧
    (activate pri st j).successes = st.successes := by
  unfold activate
  split <;> [skip; exact ⟨rfl, rfl, rfl⟩]
  split
  · split <;> simp
  · split
    · split <;> simp
    · simp

/-- Under the sum invariant, the overflow-rescue test of line 213 is
equivalent to `len(active_journals) * PDFS_PER_JOURNAL < TOTAL_PDFS`. -/
theorem overflowCond_reduces (st : DlState)
    (hsum : sumValues st.perJournal = st.successes) :
    (overflowCond st = true ↔ st.active.length * PDFS_PER_JOURNAL < TOTAL_PDFS) := by
  unfold overflowCond
  rw [hsum]
  constructor
  · intro h
    simp only [decide_eq_true_eq] at h
    have : (st.active.length : Int) * (PDFS_PER_JOURNAL : Int) < (TOTAL_PDFS : Int) := by
      omega
    exact_mod_cast this
  · intro h
    simp only [decide_eq_true_eq]
    have : (st.active.length : Int) * (PDFS_PER_JOURNAL : Int) < (TOTAL_PDFS : Int) := by
      exact_mod_cast h
    omega

/-- Under the sum invariant, the overflow-rescue test is false whenever the
branch can be reached, i.e. whenever `NUM_JOURNALS` journals are already
active. -/
theorem overflowCond_false_of_full (st : DlState)
    (hsum : sumValues st.perJournal = st.successes)
    (hfull : NUM_JOURNALS ≤ st.active.length) :
    overflowCond st = false := by
  by_contra h
  have h' : overflowCond st = true := by
    cases hov : overflowCond st
    · exact absurd hov h
    · rfl
  have := (overflowCond_reduces st hsum).mp h'
  unfold TOTAL_PDFS at this
  have hge : NUM_JOURNALS * PDFS_PER_JOURNAL ≤ st.active.length * PDFS_PER_JOURNAL :=
    Nat.mul_le_mul_right _ hfull
  have hcomm : PDFS_PER_JOURNAL * NUM_JOURNALS = NUM_JOURNALS * PDFS_PER_JOURNAL :=
    Nat.mul_comm _ _
  omega

theorem activate_invariant (pri : List String) (st : DlState) (j : String)
    (hlen : st.active.length ≤ NUM_JOURNALS)
    (hsum : sumValues st.perJournal = st.successes) :
    (activate pri st j).active.length ≤ NUM_JOURNALS ∧
    (activate pri st j).overflowAdds = st.overflowAdds := by
  unfold activate
  split <;> [skip; exact ⟨hlen, rfl⟩]
  split
  · rename_i hlt
    split
    · simpa using hlt
    · exact ⟨hlen, rfl⟩
  · rename_i hge
    have hcond : overflowCond st = false :=
      overflowCond_false_of_full st hsum (by omega)
    simp [hcond, hlen]

theorem processRow_terminal (pri : List String) (ok : Bool) (st : DlState)
    (row : Record)
    (hstat : pyLower row.downloaded = "yes" ∨ pyLower row.downloaded = "unavailable") :
    processRow pri ok st row = (row, st) := by
  simp [processRow, hstat]

/-- The four possible outcomes of one loop body execution: row skipped with
the state untouched, row skipped after mere activation bookkeeping, a
successful attempt, or a failed attempt. -/
theorem processRow_cases (pri : List String) (ok : Bool) (st : DlState)
    (row : Record) :
    processRow pri ok st row = (row, st) ∨
    processRow pri ok st row = (row, activate pri st row.journal) ∨
    (processRow pri ok st row =
        ({ row with downloaded := "yes" },
         { activate pri st row.journal with
             attempted := incr (activate pri st row.journal).attempted row.journal,
             successes := (activate pri st row.journal).successes + 1,
             perJournal := incr (activate pri st row.journal).perJournal row.journal }) ∧
      getCount (activate pri st row.journal).perJournal row.journal < PDFS_PER_JOURNAL) ∨
    processRow pri ok st row =
        ({ row with downloaded := "unavailable" },
         { activate pri st row.journal with
             attempted := incr (activate pri st row.journal).attempted row.journal }) := by
  by_cases hstat : pyLower row.downloaded = "yes" ∨ pyLower row.downloaded = "unavailable"
  · exact Or.inl (processRow_terminal pri ok st row hstat)
  · by_cases hmem : row.journal ∉ (activate pri st row.journal).active
    · refine Or.inr (Or.inl ?_)
      simp [processRow, if_neg hstat, if_pos hmem]
    · by_cases hcnt : PDFS_PER_JOURNAL ≤
          getCount (activate pri st row.journal).perJournal row.journal
      · refine Or.inr (Or.inl ?_)
        simp [processRow, if_neg hstat, if_neg hmem, if_pos hcnt]
      · cases ok
        · refine Or.inr (Or.inr (Or.inr ?_))
          simp [processRow, if_neg hstat, if_neg hmem, if_neg hcnt]
        · refine Or.inr (Or.inr (Or.inl ⟨?_, by omega⟩))
          simp [processRow, if_neg hstat, if_neg hmem, if_neg hcnt]

/-- Rows whose journal has already delivered `PDFS_PER_JOURNAL` successes
are passed over without an attempt: the row, the attempt counters, the
success counters and the success total are all left unchanged. -/
theorem processRow_skip_maxed (pri : List String) (ok : Bool) (st : DlState)
    (row : Record)
    (hmax : PDFS_PER_JOURNAL ≤ getCount st.perJournal row.journal) :
    (processRow pri ok st row).1 = row ∧
    (processRow pri ok st row).2.perJournal = st.perJournal ∧
    (processRow pri ok st row).2.attempted = st.attempted ∧
    (processRow pri ok st row).2.successes = st.successes := by
  have hfields := activate_fields pri st row.journal
  by_cases hstat : pyLower row.downloaded = "yes" ∨ pyLower row.downloaded = "unavailable"
  · simp [processRow_terminal pri ok st row hstat]
  · simp only [processRow, if_neg hstat]
    by_cases hmem : row.journal ∉ (activate pri st row.journal).active
    · simp [if_pos hmem, hfields.1, hfields.2.1, hfields.2.2]
    · simp [if_neg hmem, hfields.1, hfields.2.1, hfields.2.2, hmax]

theorem processRow_invariant (pri : List String) (ok : Bool) (st : DlState)
    (row : Record)
    (hlen : st.active.length ≤ NUM_JOURNALS)
    (hsum : sumValues st.perJournal = st.successes) :
    (processRow pri ok st row).2.active.length ≤ NUM_JOURNALS ∧
    sumValues (processRow pri ok st row).2.perJournal =
      (processRow pri ok st row).2.successes ∧
    (processRow pri ok st row).2.overflowAdds = st.overflowAdds := by
  have hact := activate_invariant pri st row.journal hlen hsum
  have hfields := activate_fields pri st row.journal
  rcases processRow_cases pri ok st row with h | h | ⟨h, _⟩ | h <;> rw [h]
  · exact ⟨hlen, hsum, rfl⟩
  · exact ⟨hact.1, by rw [hfields.1, hfields.2.2]; exact hsum, hact.2⟩
  · refine ⟨hact.1, ?_, hact.2⟩
    simp only [sumValues_incr, hfields.1, hfields.2.2, hsum]
  · exact ⟨hact.1, by rw [hfields.1, hfields.2.2]; exact hsum, hact.2⟩

theorem processRow_cnt (pri : List String) (ok : Bool) (st : DlState)
    (row : Record)
    (hcnt : ∀ j, getCount st.perJournal j ≤ PDFS_PER_JOURNAL) :
    ∀ j, getCount (processRow pri ok st row).2.perJournal j ≤ PDFS_PER_JOURNAL := by
  have hfields := activate_fields pri st row.journal
  rcases processRow_cases pri ok st row with h | h | ⟨h, hlt⟩ | h <;> rw [h] <;> intro j
  · exact hcnt j
  · rw [hfields.1]; exact hcnt j
  · by_cases hj : j = row.journal
    · subst hj
      rw [getCount_incr_self, hfields.1]
      rw [hfields.1] at hlt
      omega
    · rw [getCount_incr_ne _ _ _ hj, hfields.1]
      exact hcnt j
  · rw [hfields.1]; exact hcnt j

theorem processRow_successes_le (pri : List String) (ok : Bool) (st : DlState)
    (row : Record) :
    st.successes ≤ (processRow pri ok st row).2.successes ∧
    (processRow pri ok st row).2.successes ≤ st.successes + 1 := by
  have hfields := activate_fields pri st row.journal
  rcases processRow_cases pri ok st row with h | h | ⟨h, _⟩ | h <;> rw [h]
  · exact ⟨Nat.le_refl _, Nat.le_succ _⟩
  · rw [hfields.2.2]; omega
  · simp only [hfields.2.2]; omega
  · rw [hfields.2.2]; omega

theorem runLoop_invariant (pri : List String) (oracle : Nat → Bool) :
    ∀ (rows : List Record) (i : Nat) (st : DlState),
    st.active.length ≤ NUM_JOURNALS →
    sumValues st.perJournal = st.successes →
    (runLoop pri oracle i st rows).2.active.length ≤ NUM_JOURNALS ∧
    sumValues (runLoop pri oracle i st rows).2.perJournal =
      (runLoop pri oracle i st rows).2.successes ∧
    (runLoop pri oracle i st rows).2.overflowAdds = st.overflowAdds := by
  intro rows
  induction rows with
  | nil => intro i st hlen hsum; exact ⟨hlen, hsum, rfl⟩
  | cons row rest ih =>
      intro i st hlen hsum
      by_cases hstop : TOTAL_PDFS ≤ st.successes
      · simp only [runLoop, if_pos hstop]
        exact ⟨hlen, hsum, by trivial⟩
      · simp only [runLoop, if_neg hstop]
        have hp := processRow_invariant pri (oracle i) st row hlen hsum
        have := ih (i + 1) (processRow pri (oracle i) st row).2 hp.1 hp.2.1
        exact ⟨this.1, this.2.1, by rw [this.2.2, hp.2.2]⟩

theorem runLoop_cnt (pri : List String) (oracle : Nat → Bool) :
    ∀ (rows : List Record) (i : Nat) (st : DlState),
    (∀ j, getCount st.perJournal j ≤ PDFS_PER_JOURNAL) →
    ∀ j, getCount (runLoop pri oracle i st rows).2.perJournal j ≤ PDFS_PER_JOURNAL := by
  intro rows
  induction rows with
  | nil => intro i st hcnt; exact hcnt
  | cons row rest ih =>
      intro i st hcnt
      by_cases hstop : TOTAL_PDFS ≤ st.successes
      · simp only [runLoop, if_pos hstop]
        exact hcnt
      · simp only [runLoop, if_neg hstop]
        exact ih (i + 1) _ (processRow_cnt pri (oracle i) st row hcnt)

theorem runLoop_successes_le (pri : List String) (oracle : Nat → Bool) :
    ∀ (rows : List Record) (i : Nat) (st : DlState),
    st.successes ≤ TOTAL_PDFS →
    (runLoop pri oracle i st rows).2.successes ≤ TOTAL_PDFS := by
  intro rows
  induction rows with
  | nil => intro i st h; exact h
  | cons row rest ih =>
      intro i st h
      by_cases hstop : TOTAL_PDFS ≤ st.successes
      · simp only [runLoop, if_pos hstop]
        exact h
      · simp only [runLoop, if_neg hstop]
        refine ih (i + 1) _ ?_
        have := (processRow_successes_le pri (oracle i) st row).2
        omega

/-! ## How statuses evolve across one run -/

theorem processRow_row_rel (pri : List String) (ok : Bool) (st : DlState)
    (row : Record) :
    ((processRow pri ok st row).1 = row ∨
     (processRow pri ok st row).1 = { row with downloaded := "yes" } ∨
     (processRow pri ok st row).1 = { row with downloaded := "unavailable" }) ∧
    ((pyLower row.downloaded = "yes" ∨ pyLower row.downloaded = "unavailable") →
      (processRow pri ok st row).1 = row) := by
  constructor
  · rcases processRow_cases pri ok st row with h | h | ⟨h, _⟩ | h <;> rw [h]
    · exact Or.inl rfl
    · exact Or.inl rfl
    · exact Or.inr (Or.inl rfl)
    · exact Or.inr (Or.inr rfl)
  · intro hstat
    rw [processRow_terminal pri ok st row hstat]

theorem runLoop_rows_rel (pri : List String) (oracle : Nat → Bool) :
    ∀ (rows : List Record) (i : Nat) (st : DlState),
    List.Forall₂ (fun r r' : Record =>
      (r' = r ∨ r' = { r with downloaded := "yes" } ∨
        r' = { r with downloaded := "unavailable" }) ∧
      ((pyLower r.downloaded = "yes" ∨ pyLower r.downloaded = "unavailable") → r' = r))
      rows (runLoop pri oracle i st rows).1 := by
  intro rows
  induction rows with
  | nil => intro i st; exact List.Forall₂.nil
  | cons row rest ih =>
      intro i st
      by_cases hstop : TOTAL_PDFS ≤ st.successes
      · simp only [runLoop, if_pos hstop]
        refine List.forall₂_same.mpr ?_
        intro r _
        exact ⟨Or.inl rfl, fun _ => rfl⟩
      · simp only [runLoop, if_neg hstop]
        refine List.Forall₂.cons ?_ (ih (i + 1) _)
        exact processRow_row_rel pri (oracle i) st row

/-! ## Lemmas about the byte-level CSV lines -/

theorem splitOnComma_ne_nil (cs : List Char) : splitOnComma cs ≠ [] := by
  induction cs with
  | nil => simp [splitOnComma]
  | cons c cs ih =>
      by_cases hc : c = ','
      · simp [splitOnComma, hc]
      · simp only [splitOnComma, if_neg hc]
        cases hsplit : splitOnComma cs with
        | nil => simp
        | cons f fs => simp

theorem foldl_csvStep_noquote :
    ∀ (cs : List Char) (done : List (List Char)) (cur : List Char) (mode : CsvMode),
    mode = CsvMode.fieldStart ∨ mode = CsvMode.unquoted →
    dquote ∉ cs →
    (cs.foldl csvStep ⟨done, cur, mode⟩).done ++ [(cs.foldl csvStep ⟨done, cur, mode⟩).cur] =
      done ++ prependFirst cur (splitOnComma cs) := by
  intro cs
  induction cs with
  | nil =>
      intro done cur mode _ _
      simp [splitOnComma, prependFirst]
  | cons c cs ih =>
      intro done cur mode hmode hq
      have hcq : c ≠ dquote := by
        intro h
        exact hq (h ▸ List.mem_cons_self c cs)
      have hqs : dquote ∉ cs := fun h => hq (List.mem_cons_of_mem c h)
      obtain ⟨f, fs, hsplit⟩ := List.exists_cons_of_ne_nil (splitOnComma_ne_nil cs)
      by_cases hc : c = ','
      · subst hc
        have hne : ¬ (',' : Char) = dquote := by decide
        have hstep : csvStep ⟨done, cur, mode⟩ ',' =
            ⟨done ++ [cur], [], CsvMode.fieldStart⟩ := by
          rcases hmode with h | h <;> subst h <;> simp [csvStep, hne]
        simp only [List.foldl_cons, hstep]
        rw [ih (done ++ [cur]) [] CsvMode.fieldStart (Or.inl rfl) hqs]
        simp [splitOnComma, prependFirst, hsplit, List.append_assoc]
      · have hstep : csvStep ⟨done, cur, mode⟩ c =
            ⟨done, cur ++ [c], CsvMode.unquoted⟩ := by
          rcases hmode with h | h <;> subst h <;> simp [csvStep, hcq, hc]
        simp only [List.foldl_cons, hstep]
        rw [ih done (cur ++ [c]) CsvMode.unquoted (Or.inr rfl) hqs]
        simp [splitOnComma, hc, prependFirst, hsplit, List.append_assoc]

/-- On a line with no quote character the reader is a plain comma split. -/
theorem parseLine_noquote (cs : List Char) (hq : dquote ∉ cs) :
    parseLine cs = splitOnComma cs := by
  unfold parseLine
  rw [foldl_csvStep_noquote cs [] [] CsvMode.fieldStart (Or.inl rfl) hq]
  obtain ⟨f, fs, hsplit⟩ := List.exists_cons_of_ne_nil (splitOnComma_ne_nil cs)
  simp [hsplit, prependFirst]

theorem mem_splitOnComma (cs : List Char) :
    ∀ f ∈ splitOnComma cs, ∀ c ∈ f, c ∈ cs ∧ c ≠ ',' := by
  induction cs with
  | nil =>
      intro f hf c hc
      simp only [splitOnComma, List.mem_singleton] at hf
      subst hf
      exact absurd hc (List.not_mem_nil c)
  | cons a cs ih =>
      intro f hf c hc
      by_cases ha : a = ','
      · subst ha
        simp only [splitOnComma, if_pos rfl] at hf
        rcases List.mem_cons.mp hf with rfl | hf
        · exact absurd hc (List.not_mem_nil c)
        · have h2 := ih f hf c hc
          exact ⟨List.mem_cons_of_mem _ h2.1, h2.2⟩
      · obtain ⟨g, gs, hsplit⟩ := List.exists_cons_of_ne_nil (splitOnComma_ne_nil cs)
        have hg : g ∈ splitOnComma cs := by
          rw [hsplit]; exact List.mem_cons_self g gs
        simp only [splitOnComma, if_neg ha, hsplit] at hf
        rcases List.mem_cons.mp hf with rfl | hf
        · rcases List.mem_cons.mp hc with rfl | hcg
          · exact ⟨List.mem_cons_self _ _, ha⟩
          · have h2 := ih g hg c hcg
            exact ⟨List.mem_cons_of_mem _ h2.1, h2.2⟩
        · have hfmem : f ∈ splitOnComma cs := by
            rw [hsplit]; exact List.mem_cons_of_mem g hf
          have h2 := ih f hfmem c hc
          exact ⟨List.mem_cons_of_mem _ h2.1, h2.2⟩

theorem joinComma_cons_cons (f fs' : List Char) (g : List Char) (gs : List (List Char)) :
    joinComma ((f ++ fs') :: g :: gs) = f ++ joinComma (fs' :: g :: gs) := by
  simp [joinComma]

theorem joinComma_split (cs : List Char) : joinComma (splitOnComma cs) = cs := by
  induction cs with
  | nil => simp [splitOnComma, joinComma]
  | cons c cs ih =>
      obtain ⟨f, fs, hsplit⟩ := List.exists_cons_of_ne_nil (splitOnComma_ne_nil cs)
      by_cases hc : c = ','
      · subst hc
        simp only [splitOnComma, if_pos rfl, hsplit]
        rw [hsplit] at ih
        cases fs with
        | nil => simp [joinComma] at ih ⊢; exact ih
        | cons g gs => simp [joinComma] at ih ⊢; exact ih
      · simp only [splitOnComma, if_neg hc, hsplit]
        rw [hsplit] at ih
        cases fs with
        | nil => simp [joinComma] at ih ⊢; exact ih
        | cons g gs =>
            have : joinComma ((c :: f) :: g :: gs) = c :: joinComma (f :: g :: gs) := by
              simp [joinComma]
            rw [this, ih]

/-- Serializing a plain comma split reproduces the line byte for byte,
provided the line contains no quote character and no terminator character. -/
theorem serializeLine_split (cs : List Char)
    (h : ∀ c ∈ cs, c ≠ dquote ∧ c ≠ crChar ∧ c ≠ lfChar) :
    serializeLine (splitOnComma cs) = cs := by
  unfold serializeLine
  have hmap : (splitOnComma cs).map serializeField = splitOnComma cs := by
    have : ∀ f ∈ splitOnComma cs, serializeField f = f := by
      intro f hf
      have hquote : needsQuoting f = false := by
        simp only [needsQuoting, List.any_eq_false]
        intro c hc
        have h1 := mem_splitOnComma cs f hf c hc
        have h2 := h c h1.1
        simp [h1.2, h2.1, h2.2.1, h2.2.2]
      simp [serializeField, hquote]
    calc (splitOnComma cs).map serializeField
        = (splitOnComma cs).map id := List.map_congr_left this
      _ = splitOnComma cs := List.map_id _
  rw [hmap, joinComma_split]

/-! ## DictReader / DictWriter round trip on well-formed assoc rows -/

theorem map_lookup_zip (fns : List String) :
    ∀ (vals : List String), fns.Nodup → vals.length = fns.length →
    fns.map (fun fn => (((fns.zip vals).lookup fn).getD "")) = vals := by
  induction fns with
  | nil =>
      intro vals _ hlen
      cases vals with
      | nil => rfl
      | cons v vs => simp at hlen
  | cons a fns ih =>
      intro vals hnodup hlen
      cases vals with
      | nil => simp at hlen
      | cons v vs =>
          have hnd := List.nodup_cons.mp hnodup
          have hlen' : vs.length = fns.length := by simpa using hlen
          simp only [List.zip_cons_cons, List.map_cons]
          refine List.cons_eq_cons.mpr ⟨?_, ?_⟩
          · simp [List.lookup]
          · have hcongr :
                fns.map (fun fn => ((List.lookup fn ((a, v) :: fns.zip vs)).getD ""))
                  = fns.map (fun fn => (((fns.zip vs).lookup fn).getD "")) := by
              refine List.map_congr_left ?_
              intro fn hfn
              have hne : (fn == a) = false := by
                simp only [beq_eq_false_iff_ne, ne_eq]
                intro h
                exact hnd.1 (h ▸ hfn)
              simp [List.lookup, hne]
            rw [hcongr, ih vs hnd.2 hlen']

theorem map_data_asString (l : List (List Char)) :
    (l.map List.asString).map String.data = l := by
  induction l with
  | nil => rfl
  | cons x xs ih =>
      simp only [List.map_cons, ih]
      exact rfl

theorem forall2_exists_left {α β : Type} {R : α → β → Prop} :
    ∀ {l1 : List α} {l2 : List β}, List.Forall₂ R l1 l2 →
    ∀ b ∈ l2, ∃ a ∈ l1, R a b := by
  intro l1 l2 h
  induction h with
  | nil => intro b hb; exact absurd hb (List.not_mem_nil b)
  | cons hr _ ih =>
      intro b hb
      rcases List.mem_cons.mp hb with rfl | hb
      · exact ⟨_, List.mem_cons_self _ _, hr⟩
      · obtain ⟨a, ha, hab⟩ := ih b hb
        exact ⟨a, List.mem_cons_of_mem _ ha, hab⟩

/-! ## The loop decomposes over list append (break included)

Any intermediate state of a run is the final state of the run on the prefix
of rows processed so far; the two lemmas below make that precise, so a
statement quantified over an arbitrary row list covers every point
"throughout" a run. -/

theorem runLoop_stopped (pri : List String) (oracle : Nat → Bool)
    (i : Nat) (st : DlState) (rows : List Record)
    (h : TOTAL_PDFS ≤ st.successes) :
    runLoop pri oracle i st rows = (rows, st) := by
  cases rows with
  | nil => rfl
  | cons row rest => simp [runLoop, if_pos h]

theorem runLoop_append (pri : List String) (oracle : Nat → Bool) :
    ∀ (l1 l2 : List Record) (i : Nat) (st : DlState),
    runLoop pri oracle i st (l1 ++ l2) =
      ((runLoop pri oracle i st l1).1 ++
        (runLoop pri oracle (i + l1.length) (runLoop pri oracle i st l1).2 l2).1,
       (runLoop pri oracle (i + l1.length) (runLoop pri oracle i st l1).2 l2).2) := by
  intro l1
  induction l1 with
  | nil =>
      intro l2 i st
      simp [runLoop]
  | cons row rest ih =>
      intro l2 i st
      by_cases hstop : TOTAL_PDFS ≤ st.successes
      · simp only [List.cons_append, runLoop, if_pos hstop]
        rw [runLoop_stopped pri oracle _ st l2 hstop]
        simp
      · simp only [List.cons_append, runLoop, if_neg hstop, List.append_eq]
        rw [ih l2 (i + 1) (processRow pri (oracle i) st row).2]
        simp only [List.length_cons]
        have h2 : i + 1 + rest.length = i + (rest.length + 1) := by omega
        rw [h2]

/-! ## The code's safe set versus the amended spec safe set -/

theorem quoteSafeChars_eq_amended (c : Char) :
    quoteSafeChars c = specSafeAmendedChars c := by
  cases h1 : c.isAlphanum <;> cases h2 : c == '_' <;> cases h3 : c == '.' <;>
    cases h4 : c == '-' <;> cases h5 : c == '~' <;>
    simp [quoteSafeChars, pythonAlwaysSafe, specSafeAmendedChars, h1, h2, h3, h4, h5]

theorem pyQuote_congr (safe1 safe2 : Char → Bool)
    (h : ∀ c, safe1 c = safe2 c) (cs : List Char) :
    pyQuote safe1 cs = pyQuote safe2 cs := by
  unfold pyQuote
  have : (fun c => if safe1 c then [c] else ((utf8Bytes c).map percentByte).flatten)
       = (fun c => if safe2 c then [c] else ((utf8Bytes c).map percentByte).flatten) := by
    funext c
    rw [h c]
  rw [this]

/-! ## Serializing a well-formed parsed row reproduces its line -/

theorem serialize_zip_row (fns : List String) (l : List Char)
    (hnodup : fns.Nodup)
    (hl : ∀ c ∈ l, c ≠ dquote ∧ c ≠ crChar ∧ c ≠ lfChar)
    (hwidth : (parseLine l).length = fns.length) :
    serializeLine (fns.map
      (fun fn => ((((fns.zip ((parseLine l).map List.asString)).lookup fn).getD "").data)))
      = l := by
  have hlen : ((parseLine l).map List.asString).length = fns.length := by
    simpa using hwidth
  have h1 : fns.map
      (fun fn => ((((fns.zip ((parseLine l).map List.asString)).lookup fn).getD "").data))
      = (fns.map
          (fun fn => (((fns.zip ((parseLine l).map List.asString)).lookup fn).getD ""))).map
          String.data := by
    rw [List.map_map]
    rfl
  rw [h1, map_lookup_zip fns ((parseLine l).map List.asString) hnodup hlen,
    map_data_asString]
  have hq : dquote ∉ l := fun hd => (hl dquote hd).1 rfl
  rw [parseLine_noquote l hq]
  exact serializeLine_split l hl

theorem write_rows_of_parse (fns : List String) (hnodup : fns.Nodup) :
    ∀ (rows : List (List Char)),
    (∀ l ∈ rows, (∀ c ∈ l, c ≠ dquote ∧ c ≠ crChar ∧ c ≠ lfChar) ∧
      (parseLine l).length = fns.length) →
    (dictRows fns (rows.map (fun l => (parseLine l).map List.asString))).map
      (fun r => serializeLine (fns.map (fun fn => ((r.lookup fn).getD "").data)))
      = rows := by
  intro rows
  induction rows with
  | nil => intro _; rfl
  | cons l ls ih =>
      intro h
      simp only [dictRows, List.map_cons]
      refine List.cons_eq_cons.mpr ⟨?_, ?_⟩
      · exact serialize_zip_row fns l hnodup (h l (List.mem_cons_self _ _)).1
          (h l (List.mem_cons_self _ _)).2
      · have := ih (fun l' hl' => h l' (List.mem_cons_of_mem _ hl'))
        simpa [dictRows] using this

/-! ## The claims -/

/-- C1, counterexample: the claim says every character that is not
alphanumeric, underscore, hyphen, or period is percent-encoded, but
`urllib.parse.quote` never encodes the tilde: on the identifier `10.1/a~b`
the code produces `10.1__a~b` whereas the claimed encoding would be
`10.1__a%7Eb`. -/
theorem c1_tilde_counterexample :
    encode_doi_for_filename "10.1/a~b" = "10.1__a~b" ∧
    specEncode "10.1/a~b" = "10.1__a%7Eb" ∧
    encode_doi_for_filename "10.1/a~b" ≠ specEncode "10.1/a~b" :=
  ⟨by decide, by decide, by decide⟩

/-- C1, amended: `encode_doi_for_filename` strips an exact case-sensitive
resolver scheme, replaces every slash by `__`, and percent-encodes (as `%XX`
with uppercase hex over UTF-8 bytes) every character that is not
alphanumeric, underscore, hyphen, period, or tilde; in particular the two
examples of the claim hold as stated. -/
theorem c1_encoding_amended :
    (∀ doi : String, encode_doi_for_filename doi = specEncodeAmended doi) ∧
    encode_doi_for_filename "https://doi.org/10.1/a b" = "10.1__a%20b" ∧
    encode_doi_for_filename "10.1234/abc.def" = "10.1234__abc.def" := by
  refine ⟨?_, by decide, by decide⟩
  intro doi
  unfold encode_doi_for_filename specEncodeAmended
  rw [pyQuote_congr quoteSafeChars specSafeAmendedChars quoteSafeChars_eq_amended]

/-- C2: throughout any run (the row list, hence every processed prefix, is
arbitrary, and by `runLoop_append` every intermediate state is the final
state of a prefix run) the active set never holds more than `NUM_JOURNALS`
journals — the stronger, unconditional form of the claim, so the
overflow-rescue proviso is never even needed. -/
theorem c2_active_groups_bounded (pri : List String) (oracle : Nat → Bool)
    (rows : List Record) :
    (runLoop pri oracle 0 initState rows).2.active.length ≤ NUM_JOURNALS ∧
    (mainRun oracle rows).2.1.active.length ≤ NUM_JOURNALS := by
  constructor
  · exact (runLoop_invariant pri oracle rows 0 initState (Nat.zero_le _) rfl).1
  · exact (runLoop_invariant (get_sorted_journals_by_priority rows) oracle rows 0
      initState (Nat.zero_le _) rfl).1

/-- C3: when every record starts with a status among `""`, `"yes"`,
`"unavailable"`, then after any run every record's status is again among
those three values, and a record whose status was `"unavailable"` at the
start of the run is returned entirely unchanged (the single pass visits each
row once, so a status set during the run is likewise never touched again). -/
theorem c3_status_values_and_terminal (oracle : Nat → Bool) (rows : List Record)
    (hin : ∀ r ∈ rows,
      r.downloaded = "" ∨ r.downloaded = "yes" ∨ r.downloaded = "unavailable") :
    (∀ r' ∈ (mainRun oracle rows).1,
      r'.downloaded = "" ∨ r'.downloaded = "yes" ∨ r'.downloaded = "unavailable") ∧
    List.Forall₂ (fun r r' : Record => r.downloaded = "unavailable" → r' = r)
      rows (mainRun oracle rows).1 := by
  have hrel := runLoop_rows_rel (get_sorted_journals_by_priority rows) oracle rows 0 initState
  have hmain : (mainRun oracle rows).1 =
      (runLoop (get_sorted_journals_by_priority rows) oracle 0 initState rows).1 := rfl
  rw [hmain]
  constructor
  · intro r' hr'
    obtain ⟨r, hr, hrrel⟩ := forall2_exists_left hrel r' hr'
    rcases hrrel.1 with h | h | h
    · rw [h]; exact hin r hr
    · rw [h]; right; left; rfl
    · rw [h]; right; right; rfl
  · refine List.Forall₂.imp ?_ hrel
    intro r r' hrrel hunav
    apply hrrel.2
    right
    rw [hunav]
    decide

theorem c3_witness :
    (∀ r ∈ ([⟨"a", "d1", "u1", ""⟩, ⟨"b", "d2", "u2", "unavailable"⟩] : List Record),
      r.downloaded = "" ∨ r.downloaded = "yes" ∨ r.downloaded = "unavailable") ∧
    ((∀ r' ∈ (mainRun (fun _ => true)
        [⟨"a", "d1", "u1", ""⟩, ⟨"b", "d2", "u2", "unavailable"⟩]).1,
      r'.downloaded = "" ∨ r'.downloaded = "yes" ∨ r'.downloaded = "unavailable") ∧
     List.Forall₂ (fun r r' : Record => r.downloaded = "unavailable" → r' = r)
       [⟨"a", "d1", "u1", ""⟩, ⟨"b", "d2", "u2", "unavailable"⟩]
       (mainRun (fun _ => true)
         [⟨"a", "d1", "u1", ""⟩, ⟨"b", "d2", "u2", "unavailable"⟩]).1) :=
  ⟨by decide,
   c3_status_values_and_terminal (fun _ => true)
     [⟨"a", "d1", "u1", ""⟩, ⟨"b", "d2", "u2", "unavailable"⟩] (by decide)⟩

/-- C4: after any run (equivalently, by `runLoop_append`, at every point
during it) no journal's success counter exceeds `PDFS_PER_JOURNAL`; and a
row whose journal has already reached `PDFS_PER_JOURNAL` successes is passed
over without an attempt — row, attempt counters, success counters and the
success total all unchanged. -/
theorem c4_per_journal_cap (oracle : Nat → Bool) (rows : List Record) :
    (∀ j, getCount (mainRun oracle rows).2.1.perJournal j ≤ PDFS_PER_JOURNAL) ∧
    (∀ (pri : List String) (ok : Bool) (st : DlState) (row : Record),
      PDFS_PER_JOURNAL ≤ getCount st.perJournal row.journal →
      (processRow pri ok st row).1 = row ∧
      (processRow pri ok st row).2.perJournal = st.perJournal ∧
      (processRow pri ok st row).2.attempted = st.attempted ∧
      (processRow pri ok st row).2.successes = st.successes) := by
  constructor
  · intro j
    exact runLoop_cnt (get_sorted_journals_by_priority rows) oracle rows 0 initState
      (fun _ => Nat.zero_le _) j
  · intro pri ok st row hmax
    exact processRow_skip_maxed pri ok st row hmax

theorem c4_witness :
    PDFS_PER_JOURNAL ≤ getCount [("a", 2)] "a" ∧
    ((processRow [] true ⟨0, [("a", 2)], [], ["a"], 0⟩ ⟨"a", "d", "u", ""⟩).1 =
        ⟨"a", "d", "u", ""⟩ ∧
     (processRow [] true ⟨0, [("a", 2)], [], ["a"], 0⟩ ⟨"a", "d", "u", ""⟩).2.perJournal =
        [("a", 2)] ∧
     (processRow [] true ⟨0, [("a", 2)], [], ["a"], 0⟩ ⟨"a", "d", "u", ""⟩).2.attempted =
        [] ∧
     (processRow [] true ⟨0, [("a", 2)], [], ["a"], 0⟩ ⟨"a", "d", "u", ""⟩).2.successes =
        0) :=
  ⟨by decide,
   (c4_per_journal_cap (fun _ => true) []).2 [] true ⟨0, [("a", 2)], [], ["a"], 0⟩
     ⟨"a", "d", "u", ""⟩ (by decide)⟩

/-- C5: `download_pdf` reports success exactly when the fetch succeeded and
the payload begins with the PDF signature bytes; it writes the destination
file exactly when it reports success; and on every failure — transport or
protocol error, or a payload without the signature — it writes nothing. -/
theorem c5_download_pdf_contract (o : FetchOutcome) :
    ((download_pdf o).1 = true ↔
      ∃ c, o = FetchOutcome.success c ∧ c.take 4 = pdfSignature) ∧
    ((download_pdf o).2.isSome ↔ (download_pdf o).1 = true) ∧
    ((download_pdf o).1 = false → (download_pdf o).2 = none) := by
  cases o with
  | httpError code => simp [download_pdf]
  | urlError => simp [download_pdf]
  | otherError => simp [download_pdf]
  | success content =>
      by_cases h : content.take 4 = pdfSignature
      · simp [download_pdf, h]
      · simp [download_pdf, h]

theorem c5_witness :
    (download_pdf (FetchOutcome.success [1, 2, 3])).1 = false ∧
    (download_pdf (FetchOutcome.success [1, 2, 3])).2 = none :=
  ⟨by decide,
   (c5_download_pdf_contract (FetchOutcome.success [1, 2, 3])).2.2 (by decide)⟩

/-- C6: the exit code is `0` exactly when the run reached the full target
`TOTAL_PDFS` of successful downloads, and `1` exactly when it ended short of
the target (the success count never exceeds the target, so the two cases are
exhaustive). -/
theorem c6_exit_code_contract (oracle : Nat → Bool) (rows : List Record) :
    ((mainRun oracle rows).2.2 = 0 ↔
      (mainRun oracle rows).2.1.successes = TOTAL_PDFS) ∧
    ((mainRun oracle rows).2.2 = 1 ↔
      (mainRun oracle rows).2.1.successes < TOTAL_PDFS) := by
  have hle : (mainRun oracle rows).2.1.successes ≤ TOTAL_PDFS :=
    runLoop_successes_le (get_sorted_journals_by_priority rows) oracle rows 0 initState
      (Nat.zero_le _)
  have hexit : (mainRun oracle rows).2.2 =
      if (mainRun oracle rows).2.1.successes < TOTAL_PDFS then 1 else 0 := rfl
  rw [hexit]
  by_cases h : (mainRun oracle rows).2.1.successes < TOTAL_PDFS
  · rw [if_pos h]
    constructor
    · constructor <;> intro h2 <;> omega
    · constructor <;> intro h2
      · exact h
      · rfl
  · rw [if_neg h]
    constructor
    · constructor <;> intro h2
      · omega
      · rfl
    · constructor <;> intro h2 <;> omega

/-- C8: a storage file with no header (an empty file, for which
`DictReader.fieldnames` is `None`) makes the load fail with the FormatError,
and the whole run aborts with that error before any download attempt — the
error propagates out of `main` uncaught. -/
theorem c8_no_header_aborts (oracle : Nat → Bool) :
    readCsvChecked [] = Except.error FormatError.noHeader ∧
    mainChecked oracle [] = Except.error FormatError.noHeader :=
  ⟨rfl, rfl⟩

/-- C10: the success total always equals the sum of the per-journal success
counters (both are incremented together, only on success); consequently the
overflow-rescue test of line 213 is equivalent to
`len(active_journals) * PDFS_PER_JOURNAL < TOTAL_PDFS`, which is false
whenever the branch is reachable (it needs `NUM_JOURNALS` active journals
already), so the rescue branch never activates a journal: its activation
counter stays `0` on every run. -/
theorem c10_sum_invariant_overflow_dead (pri : List String) (oracle : Nat → Bool)
    (rows : List Record) :
    sumValues (runLoop pri oracle 0 initState rows).2.perJournal =
      (runLoop pri oracle 0 initState rows).2.successes ∧
    (runLoop pri oracle 0 initState rows).2.overflowAdds = 0 ∧
    (∀ st : DlState, sumValues st.perJournal = st.successes →
      (overflowCond st = true ↔ st.active.length * PDFS_PER_JOURNAL < TOTAL_PDFS) ∧
      (NUM_JOURNALS ≤ st.active.length → overflowCond st = false)) := by
  have h := runLoop_invariant pri oracle rows 0 initState (Nat.zero_le _) rfl
  exact ⟨h.2.1, h.2.2, fun st hsum =>
    ⟨overflowCond_reduces st hsum, fun hful => overflowCond_false_of_full st hsum hful⟩⟩

theorem c10_witness :
    sumValues initState.perJournal = initState.successes ∧
    (overflowCond initState = true ↔
      initState.active.length * PDFS_PER_JOURNAL < TOTAL_PDFS) :=
  ⟨by decide,
   ((c10_sum_invariant_overflow_dead [] (fun _ => true) []).2.2 initState (by decide)).1⟩

/-- C7: loading keeps the records in file order with the column order
preserved; when the status column `downloaded` is absent from the header it
is appended as the last column, initialized to the empty string on every
record; when it is present, records and column list come back unchanged. -/
theorem c7_load_shape (fns : List String) (raws : List (List String)) :
    (read_csv_with_downloaded_column fns raws).1.length = raws.length ∧
    (∀ (k : Nat) (hk : k < raws.length)
        (hk' : k < (read_csv_with_downloaded_column fns raws).1.length),
      (read_csv_with_downloaded_column fns raws).1.get ⟨k, hk'⟩ =
        fns.zip (raws.get ⟨k, hk⟩) ++
          (if "downloaded" ∈ fns then [] else [("downloaded", "")])) ∧
    (read_csv_with_downloaded_column fns raws).2 =
      fns ++ (if "downloaded" ∈ fns then [] else ["downloaded"]) ∧
    ("downloaded" ∈ fns →
      read_csv_with_downloaded_column fns raws = (dictRows fns raws, fns)) := by
  by_cases hmem : "downloaded" ∈ fns
  · refine ⟨?_, ?_, ?_, fun _ => ?_⟩
    · simp [read_csv_with_downloaded_column, hmem, dictRows]
    · intro k hk hk'
      simp [read_csv_with_downloaded_column, hmem, dictRows]
    · simp [read_csv_with_downloaded_column, hmem]
    · simp [read_csv_with_downloaded_column, hmem]
  · refine ⟨?_, ?_, ?_, fun h => absurd h hmem⟩
    · simp [read_csv_with_downloaded_column, hmem, dictRows]
    · intro k hk hk'
      simp [read_csv_with_downloaded_column, hmem, dictRows]
    · simp [read_csv_with_downloaded_column, hmem]

theorem c7_witness :
    ("downloaded" ∈ ["doi", "downloaded"] ∧
      read_csv_with_downloaded_column ["doi", "downloaded"] [["x", "yes"]] =
        (dictRows ["doi", "downloaded"] [["x", "yes"]], ["doi", "downloaded"])) ∧
    ((0 : Nat) < ([["x"]] : List (List String)).length ∧
      (read_csv_with_downloaded_column ["doi"] [["x"]]).1.get ⟨0, by decide⟩ =
        ["doi"].zip ["x"] ++
          (if "downloaded" ∈ ["doi"] then [] else [("downloaded", "")])) :=
  ⟨⟨by decide,
    (c7_load_shape ["doi", "downloaded"] [["x", "yes"]]).2.2.2 (by decide)⟩,
   ⟨by decide,
    (c7_load_shape ["doi"] [["x"]]).2.1 0 (by decide) (by decide)⟩⟩

/-- C9, counterexample: a zero-modification round trip is NOT byte-for-byte
even with the status column present: the reader strips the superfluous
quotes of the input field `"d"` and the minimal-quoting writer does not put
them back, so the saved row `j,d,u,yes` differs from the original
`j,"d",u,yes`. -/
theorem c9_quoted_field_counterexample :
    "downloaded" ∈ (parseLine ("journal,doi,oa_url,downloaded".data)).map List.asString ∧
    csvRoundTrip ["journal,doi,oa_url,downloaded".data, "j,\"d\",u,yes".data] =
      ["journal,doi,oa_url,downloaded".data, "j,d,u,yes".data] ∧
    csvRoundTrip ["journal,doi,oa_url,downloaded".data, "j,\"d\",u,yes".data] ≠
      ["journal,doi,oa_url,downloaded".data, "j,\"d\",u,yes".data] :=
  ⟨by decide, by decide, by decide⟩

/-- C9, amended: with the status column already present, loading and
immediately saving reproduces the row content byte for byte provided the
original rows are in the writer's own canonical form — no quote character
(so no quoted field) and no embedded terminator character in any line, a
duplicate-free header, and header-width rows. -/
theorem c9_roundtrip_amended (headerLine : List Char) (rowLines : List (List Char))
    (hchars : ∀ l ∈ headerLine :: rowLines,
      ∀ c ∈ l, c ≠ dquote ∧ c ≠ crChar ∧ c ≠ lfChar)
    (hdl : "downloaded" ∈ (parseLine headerLine).map List.asString)
    (hnodup : ((parseLine headerLine).map List.asString).Nodup)
    (hwidth : ∀ l ∈ rowLines, (parseLine l).length = (parseLine headerLine).length) :
    csvRoundTrip (headerLine :: rowLines) = headerLine :: rowLines := by
  have hhchars := hchars headerLine (List.mem_cons_self _ _)
  have hstep : csvRoundTrip (headerLine :: rowLines) =
      write_csv ((parseLine headerLine).map List.asString)
        (dictRows ((parseLine headerLine).map List.asString)
          (rowLines.map (fun l => (parseLine l).map List.asString))) := by
    simp [csvRoundTrip, readCsvChecked, read_csv_with_downloaded_column, hdl]
  rw [hstep]
  unfold write_csv
  refine List.cons_eq_cons.mpr ⟨?_, ?_⟩
  · rw [map_data_asString]
    have hq : dquote ∉ headerLine := fun hd => (hhchars dquote hd).1 rfl
    rw [parseLine_noquote headerLine hq]
    exact serializeLine_split headerLine hhchars
  · apply write_rows_of_parse _ hnodup
    intro l hl
    exact ⟨hchars l (List.mem_cons_of_mem _ hl), by simpa using hwidth l hl⟩

theorem c9_witness :
    ((∀ l ∈ ["a,downloaded".data, "x,yes".data],
        ∀ c ∈ l, c ≠ dquote ∧ c ≠ crChar ∧ c ≠ lfChar) ∧
      "downloaded" ∈ (parseLine ("a,downloaded".data)).map List.asString ∧
      ((parseLine ("a,downloaded".data)).map List.asString).Nodup ∧
      (∀ l ∈ [("x,yes".data)],
        (parseLine l).length = (parseLine ("a,downloaded".data)).length)) ∧
    csvRoundTrip ["a,downloaded".data, "x,yes".data] =
      ["a,downloaded".data, "x,yes".data] :=
  ⟨⟨by decide, by decide, by decide, by decide⟩,
   c9_roundtrip_amended ("a,downloaded".data) [("x,yes".data)]
     (by decide) (by decide) (by decide) (by decide)⟩

end Sampler
